import Mathlib

/-!
Verification of the `DataHandler` query engine (gramex/handlers/datahandler.py)
against its natural-language specification.

The handler translates URL-style query parameters (select, where, groupby,
agg, sort, offset, limit, format) into a backend query for one of two
drivers (`sqlalchemy`, the relational adapter; `blaze`, the array adapter),
executes it, and serializes the result.

Modelling conventions:
* Python values that are "a list of strings or None" are `Option (List String)`;
  Python truthiness of such a value is `pyTruthy`.
* The two regular expressions of the source (the where-predicate pattern
  `([^=><~!]+)([=><~!]{1,2})([^=><~!]+)` and the aggregate pattern
  `([^:]+):([aA-zZ]+)\(([^:]+)\)`, both used with `re.search`) are embedded
  as executable matchers over `List Char` that implement the same
  leftmost-search, greedy semantics.
* SQL `LIKE`/`ILIKE` pattern matching (the semantics of the sqlalchemy calls
  `col.ilike(...)` / `col.notlike(...)`) is embedded by the executable
  matcher `likeMatch` (`%` matches any sequence, `_` any single character).
* Result rows are association lists from column names to string cell values.
* The process-wide engine registry `drivers` (a dict keyed by
  `yaml.dump(kwargs)`) is embedded as an association list together with a
  fresh-handle counter; handles are natural numbers.
-/

namespace DataHandler

/-! ## Definitions: the shallow embedding of datahandler.py -/

/-- Python truthiness of a value that is either `None` or a list of strings:
`None` and the empty list are falsy. -/
def pyTruthy (x : Option (List String)) : Bool :=
  match x with
  | none => false
  | some l => !l.isEmpty

/-- Python `a or b` on such values: returns `a` when `a` is truthy, else `b`. -/
def pyOr (a b : Option (List String)) : Option (List String) :=
  if pyTruthy a then a else b

/-- `DataHandler.getq`:
`self.qconfig['query'].get(key) or self.get_arguments(key) or
 self.qconfig['default'].get(key) or default_value`.
`queryCfg`/`defaultCfg` are the (normalized) configuration mappings' values
for the key (`none` when the key is absent), `args` is the request's repeated
parameters for the key (always a list, possibly empty), and `defaultValue`
is the fallback argument (`none` for select/where/groupby/agg/sort). -/
def getq (queryCfg : Option (List String)) (args : List String)
    (defaultCfg defaultValue : Option (List String)) : Option (List String) :=
  pyOr queryCfg (pyOr (some args) (pyOr defaultCfg defaultValue))

/-- The three supported output formats. -/
inductive OutFmt where
  | json
  | csv
  | html
  deriving DecidableEq, Repr

/-- The serializer's format dispatch:
`if 'json' in _formats: ... elif 'csv' in _formats: ... elif 'html' in
_formats: ... else: raise NotImplementedError(...)`.
The error value carries the unsupported format list. -/
def chooseFormat (formats : List String) : Except (List String) OutFmt :=
  if "json" ∈ formats then .ok .json
  else if "csv" ∈ formats then .ok .csv
  else if "html" ∈ formats then .ok .html
  else .error formats

/-- The handler kwargs relevant to connection construction. `parametersRepr`
stands for the serialized `parameters` mapping. -/
structure Params where
  driver : String
  url : String
  table : String
  parametersRepr : String
  deriving DecidableEq, Repr

/-- `self.driver_key = yaml.dump(kwargs)`: a deterministic serialization of
the kwargs with keys in alphabetical order (driver, parameters, table, url),
each value embedded between fixed markers. -/
def driverKey (p : Params) : List Char :=
  "driver: ".toList ++ (p.driver.toList ++ ("\nparameters: ".toList ++
    (p.parametersRepr.toList ++ ("\ntable: ".toList ++
      (p.table.toList ++ ("\nurl: ".toList ++ p.url.toList))))))

/-- The module-level `drivers` dict plus a supply of fresh handles; a handle
(`Nat`) models one constructed engine/connection object. -/
structure DriversState where
  entries : List (List Char × Nat)
  nextHandle : Nat
  deriving DecidableEq, Repr

/-- The registry at process start: `drivers = {}`. -/
def initialDrivers : DriversState := ⟨[], 0⟩

/-- The sqlalchemy branch (lines 85-88): on a registry miss, construct an
engine (`sa.create_engine(...)`, modelled as allocating a fresh handle) and
store it under `driver_key`; on a hit, reuse the stored engine. -/
def saObtainEngine (st : DriversState) (p : Params) : Nat × DriversState :=
  match st.entries.lookup (driverKey p) with
  | some h => (h, st)
  | none =>
    (st.nextHandle, ⟨(driverKey p, st.nextHandle) :: st.entries, st.nextHandle + 1⟩)

/-- The blaze branch (lines 167-175): `bz.Data(...)` is constructed afresh
on every request and the `drivers` registry is never consulted (the source
notes "TODO: Not caching blaze connections"). -/
def blazeObtainConn (st : DriversState) (_p : Params) : Nat × DriversState :=
  (st.nextHandle, ⟨st.entries, st.nextHandle + 1⟩)

/-- Membership in the regex operator character class `[=><~!]`. -/
def isWhOpChar (c : Char) : Bool :=
  c == '=' || c == '>' || c == '<' || c == '~' || c == '!'

/-- Match the where-pattern anchored at the start of `l`: one or more
non-operator characters (the column), a greedy run of one or two operator
characters, then one or more non-operator characters (the value). When the
greedy two-character operator leaves no valid value start, the one-character
fallback would have to begin its value at an operator character, so the
whole anchored match fails — exactly the regex backtracking behavior. -/
def whMatchAt (l : List Char) : Option (String × String × String) :=
  let col := l.takeWhile (fun c => !isWhOpChar c)
  let rest := l.dropWhile (fun c => !isWhOpChar c)
  if col.isEmpty then none
  else
    match rest with
    | [] => none
    | o₁ :: r₂ =>
      match r₂ with
      | [] => none
      | o₂ :: r₃ =>
        if isWhOpChar o₂ then
          let val := r₃.takeWhile (fun c => !isWhOpChar c)
          if val.isEmpty then none else some (⟨col⟩, ⟨[o₁, o₂]⟩, ⟨val⟩)
        else
          some (⟨col⟩, ⟨[o₁]⟩, ⟨r₂.takeWhile (fun c => !isWhOpChar c)⟩)

/-- `re.search` over the where pattern: try the anchored match at each
successive start position, returning the leftmost match. -/
def whSearch : List Char → Option (String × String × String)
  | [] => none
  | c :: cs =>
    match whMatchAt (c :: cs) with
    | some r => some r
    | none => whSearch cs

/-- One sqlalchemy predicate appended to `wheres` (lines 102-117).
Comparison predicates keep the raw string value; the LIKE predicates store
the full pattern built by the source, `'%' + val + '%'`. -/
inductive SAPred where
  | eq (col val : String)
  | ge (col val : String)
  | le (col val : String)
  | gt (col val : String)
  | lt (col val : String)
  | ne (col val : String)
  | ilike (col pattern : String)
  | notlike (col pattern : String)
  deriving DecidableEq, Repr

/-- The sqlalchemy operator dispatch (lines 102-117). An operator string
matching none of the branches appends nothing to `wheres`. Note the
asymmetry in the source: `~` builds `col.ilike(...)` (case-insensitive)
while `!~` builds `col.notlike(...)` (case-sensitive). -/
def saPredOf (col oper val : String) : Option SAPred :=
  if oper = "==" ∨ oper = "=" then some (.eq col val)
  else if oper = ">=" then some (.ge col val)
  else if oper = "<=" then some (.le col val)
  else if oper = ">" then some (.gt col val)
  else if oper = "<" then some (.lt col val)
  else if oper = "!=" then some (.ne col val)
  else if oper = "~" then some (.ilike col ("%" ++ val ++ "%"))
  else if oper = "!~" then some (.notlike col ("%" ++ val ++ "%"))
  else none

/-- Parse and dispatch all where strings for the sqlalchemy branch
(lines 93-118); unmatched strings and unmatched operators contribute
nothing. -/
def saBuildWheres (ws : List String) : List SAPred :=
  ws.filterMap (fun w => (whSearch w.toList).bind (fun m => saPredOf m.1 m.2.1 m.2.2))

/-- One blaze predicate (lines 188-199). -/
inductive BzPred where
  | eq (col val : String)
  | ge (col val : String)
  | le (col val : String)
  | gt (col val : String)
  | lt (col val : String)
  | ne (col val : String)
  deriving DecidableEq, Repr

/-- The blaze operator dispatch (lines 188-199). The chain has NO branch
for `~` or `!~`: for those operators the source leaves `whr` unassigned
(an `UnboundLocalError` on first use, or a stale previous predicate), so no
predicate with substring semantics is ever built; the embedding returns
`none` for "no branch assigns `whr`". -/
def bzPredOf (col oper val : String) : Option BzPred :=
  if oper = "==" ∨ oper = "=" then some (.eq col val)
  else if oper = ">=" then some (.ge col val)
  else if oper = "<=" then some (.le col val)
  else if oper = ">" then some (.gt col val)
  else if oper = "<" then some (.lt col val)
  else if oper = "!=" then some (.ne col val)
  else none

/-- Parse and dispatch all where strings for the blaze branch
(lines 179-201); unmatched strings and operators without a dispatch branch
contribute nothing to the AND-chain. -/
def bzBuildWheres (ws : List String) : List BzPred :=
  ws.filterMap (fun w => (whSearch w.toList).bind (fun m => bzPredOf m.1 m.2.1 m.2.2))

/-- SQL LIKE pattern matching over character lists: `%` matches any
sequence, `_` matches any single character, any other pattern character
matches itself. -/
def likeMatch : List Char → List Char → Bool
  | [], s => s.isEmpty
  | p :: ps, [] => if p = '%' then likeMatch ps [] else false
  | p :: ps, c :: s' =>
    if p = '%' then likeMatch ps (c :: s') || likeMatch (p :: ps) s'
    else (if p = '_' then true else p == c) && likeMatch ps s'
termination_by ps s => ps.length + s.length
decreasing_by all_goals simp_arith

/-- A result row: an association list from column names to string cell
values (values are compared as strings; backend type coercion is outside
this layer). -/
abbrev Row := List (String × String)

/-- Cell access `table.c[col]` on a row (columns referenced by the
predicates are assumed present; a missing column would be a reflection
error upstream of the semantics modelled here). -/
def cell (r : Row) (c : String) : String := ((r.lookup c).getD "")

/-- Lexicographic comparison of cell values as character sequences
(characters ordered by code point): the value ordering this embedding uses
for the backends' comparison and sorting semantics. -/
def charListLt : List Char → List Char → Bool
  | [], [] => false
  | [], _ :: _ => true
  | _ :: _, [] => false
  | a :: as, b :: bs =>
    if a.toNat < b.toNat then true
    else if b.toNat < a.toNat then false
    else charListLt as bs

/-- Cell-value order `x ≤ y` (the negation of `y < x`). -/
def strLe (x y : String) : Bool := !charListLt y.toList x.toList

/-- Cell-value strict order `x < y`. -/
def strLt (x y : String) : Bool := charListLt x.toList y.toList

/-- SQL truth of one sqlalchemy predicate on one row: `ilike` lowercases
both pattern and operand before LIKE matching; `notlike` is the negation of
case-sensitive LIKE; ordered comparisons use the cell-value order. -/
def evalSAPred (r : Row) : SAPred → Bool
  | .eq c v => cell r c == v
  | .ge c v => strLe v (cell r c)
  | .le c v => strLe (cell r c) v
  | .gt c v => strLt v (cell r c)
  | .lt c v => strLt (cell r c) v
  | .ne c v => cell r c != v
  | .ilike c pat =>
      likeMatch (pat.toList.map Char.toLower) ((cell r c).toList.map Char.toLower)
  | .notlike c pat => !likeMatch pat.toList (cell r c).toList

/-- `sa.and_(*wheres)` as the executed WHERE clause: a row of the table is
kept iff every built predicate holds. -/
def saFilterRows (preds : List SAPred) (rows : List Row) : List Row :=
  rows.filter (fun r => preds.all (evalSAPred r))

/-- Modelled from the spec's words, for comparison with the code:
case-insensitive substring containment. -/
def ciContains (s sub : String) : Bool :=
  decide ((sub.toList.map Char.toLower) <:+: (s.toList.map Char.toLower))

/-- Case-sensitive substring containment. -/
def csContains (s sub : String) : Bool :=
  decide (sub.toList <:+: s.toList)

/-- Membership in the regex character class `[aA-zZ]`: the contiguous ASCII
range from 'A' to 'z' (which also admits a few punctuation characters
between 'Z' and 'a'). -/
def isAggOpChar (c : Char) : Bool := 'A' ≤ c && c ≤ 'z'

/-- The greedy, backtracking match of `([^:]+)\)` against a `:`-free run:
the capture extends to the last `)` of the run and must be non-empty. -/
def lastParenSplit (run : List Char) : Option (List Char) :=
  match run.reverse.dropWhile (fun c => c != ')') with
  | [] => none
  | _ :: pre => if pre.isEmpty then none else some pre.reverse

/-- Match the aggregate pattern anchored at the start of `l`: one or more
non-colon characters (the output name), a `:`, a greedy run of
`[aA-zZ]` characters (the operator), a literal `(`, then the backtracking
`([^:]+)\)` for the source column. -/
def aggMatchAt (l : List Char) : Option (String × String × String) :=
  let name := l.takeWhile (fun c => c != ':')
  let rest := l.dropWhile (fun c => c != ':')
  if name.isEmpty then none
  else
    match rest with
    | [] => none
    | _ :: r₂ =>
      let op := r₂.takeWhile isAggOpChar
      let r₃ := r₂.dropWhile isAggOpChar
      if op.isEmpty then none
      else
        match r₃ with
        | '(' :: r₄ =>
          match lastParenSplit (r₄.takeWhile (fun c => c != ':')) with
          | some col => some (⟨name⟩, ⟨op⟩, ⟨col⟩)
          | none => none
        | _ => none

/-- `re.search` over the aggregate pattern: leftmost anchored match. -/
def aggSearch : List Char → Option (String × String × String)
  | [] => none
  | c :: cs =>
    match aggMatchAt (c :: cs) with
    | some r => some r
    | none => aggSearch cs

/-- The sqlalchemy aggregate functions reachable from the `safuncs` dict
(`mean` maps to `sa.func.avg`, `nunique` to `sa.func.count`). -/
inductive SAFunc where
  | min
  | max
  | sum
  | count
  | avg
  deriving DecidableEq, Repr

/-- The `safuncs` dict (lines 123-125). -/
def safuncs (oper : String) : Option SAFunc :=
  if oper = "min" then some .min
  else if oper = "max" then some .max
  else if oper = "sum" then some .sum
  else if oper = "count" then some .count
  else if oper = "mean" then some .avg
  else if oper = "nunique" then some .count
  else none

/-- One sqlalchemy select-list item of the aggregation path: a group-by
column, a labeled native aggregate, or the labeled count-of-distinct built
for `nunique`. -/
inductive SAItem where
  | col (c : String)
  | aggPlain (f : SAFunc) (src : String) (label : String)
  | aggCountDistinct (src : String) (label : String)
  deriving DecidableEq, Repr

/-- The `.key` of a select-list item: the column name for a plain column,
the label for a labeled aggregate (used by the `grp.key in _selects`
projection filter of line 138). -/
def SAItem.key : SAItem → String
  | .col c => c
  | .aggPlain _ _ l => l
  | .aggCountDistinct _ l => l

/-- Lines 132-135: `nunique` is special-cased to
`sa.func.count(col.distinct()).label(name)`; any other operator is looked
up in `safuncs`, where a missing key raises `KeyError` (failing the
request). The error value carries the unknown operator. -/
def saAggItem (name oper col : String) : Except String SAItem :=
  if oper = "nunique" then .ok (.aggCountDistinct col name)
  else
    match safuncs oper with
    | some f => .ok (.aggPlain f col name)
    | none => .error oper

/-- The aggregate loop of lines 127-135: strings the regex does not match
are skipped; matched strings are built in order, the first unknown operator
failing the whole build. -/
def saBuildAggItems : List String → Except String (List SAItem)
  | [] => .ok []
  | a :: rest =>
    match aggSearch a.toList with
    | none => saBuildAggItems rest
    | some m =>
      match saAggItem m.1 m.2.1 m.2.2 with
      | .error e => .error e
      | .ok item =>
        match saBuildAggItems rest with
        | .error e => .error e
        | .ok items => .ok (item :: items)

/-- The blaze aggregate functions of the `byaggs` dict (lines 204-206). -/
inductive BzFunc where
  | min
  | max
  | sum
  | count
  | mean
  | nunique
  deriving DecidableEq, Repr

/-- The `byaggs` dict: all six operators map to native blaze reducers
(`bz.nunique` is blaze's native count-of-distinct). -/
def byaggs (oper : String) : Option BzFunc :=
  if oper = "min" then some .min
  else if oper = "max" then some .max
  else if oper = "sum" then some .sum
  else if oper = "count" then some .count
  else if oper = "mean" then some .mean
  else if oper = "nunique" then some .nunique
  else none

/-- The blaze aggregate loop (lines 210-215): unmatched strings are
skipped; `byaggs[oper]` raises `KeyError` on an unknown operator. Each
entry records the assignment `aggs[name] = byaggs[oper](query[col])` in
loop order. -/
def bzBuildAggs : List String → Except String (List (String × BzFunc × String))
  | [] => .ok []
  | a :: rest =>
    match aggSearch a.toList with
    | none => bzBuildAggs rest
    | some m =>
      match byaggs m.2.1 with
      | none => .error m.2.1
      | some f =>
        match bzBuildAggs rest with
        | .error e => .error e
        | .ok entries => .ok ((m.1, f, m.2.2) :: entries)

/-- The select clause the sqlalchemy branch builds. -/
inductive SASelect where
  | star
  | cols (cs : List String)
  | agg (items : List SAItem) (groupBy : List String)
  deriving DecidableEq, Repr

/-- Lines 120-150 (the parts choosing the select list): the aggregation
path is entered only when `_groups and _aggs` are both truthy (`getq`
returns either `None` or a non-empty list, so truthiness coincides with
non-emptiness); otherwise a plain select of the requested columns (or of
the whole table) is built. On the aggregation path the select list is the
group-by columns followed by the labeled aggregates, filtered — when
`_selects` is given — to the items whose key is among the selects. -/
def buildSASelect (selects groups aggs : List String) : Except String SASelect :=
  if groups ≠ [] ∧ aggs ≠ [] then
    match saBuildAggItems aggs with
    | .error e => .error e
    | .ok aggItems =>
      let aggselects := groups.map SAItem.col ++ aggItems
      .ok (.agg (if selects ≠ [] then aggselects.filter (fun it => it.key ∈ selects)
                 else aggselects) groups)
  else if selects ≠ [] then .ok (.cols selects)
  else .ok .star

/-- The shape of the blaze query before the trailing projection. -/
inductive BzShape where
  | table
  | groupedBy (groups : List String) (aggs : List (String × BzFunc × String))
  deriving DecidableEq, Repr

/-- Lines 203-216: blaze enters `bz.by(...)` only when `_groups and _aggs`
are both truthy; otherwise the query stays the bare table expression (the
`_selects` projection of lines 235-236 is applied afterwards in both
cases). -/
def buildBzShape (groups aggs : List String) : Except String BzShape :=
  if groups ≠ [] ∧ aggs ≠ [] then
    match bzBuildAggs aggs with
    | .error e => .error e
    | .ok entries => .ok (.groupedBy groups entries)
  else .ok .table

/-- Python `sort.partition(':')[::2]`: the text before the first `:` and
the text after it (the whole string and `""` when `:` is absent). -/
def pyPartitionColon (s : String) : String × String :=
  (⟨s.toList.takeWhile (fun c => c != ':')⟩,
   ⟨(s.toList.dropWhile (fun c => c != ':')).drop 1⟩)

/-- The sqlalchemy sort loop (lines 152-158): each parameter contributes
`order.get(odr, sa.asc)(col)` — its own column with its own direction,
descending only for the explicit suffix `:desc` (`sa.asc` is the default
for a missing or unrecognized direction). `true` means ascending. -/
def saBuildSorts (sorts : List String) : List (String × Bool) :=
  sorts.map (fun s =>
    let p := pyPartitionColon s
    (p.1, !(p.2 == "desc")))

/-- The blaze sort block (lines 218-224): the loop collects only the
column names into `sorts`; the single `ascending` flag passed to
`query.sort(sorts, ascending=order.get(odr, True))` is computed from `odr`
as left by the LAST loop iteration — the direction part of the last
parameter only. The block is guarded by `if _sorts:`, so the flag for an
empty parameter list is never used (`true` is a placeholder). -/
def bzBuildSorts (sorts : List String) : List String × Bool :=
  (sorts.map (fun s => (pyPartitionColon s).1),
   match sorts.getLast? with
   | none => true
   | some s => !((pyPartitionColon s).2 == "desc"))

/-- Comparison of two cell values under one direction (`true` is
ascending). -/
def dirCmp (asc : Bool) (x y : String) : Ordering :=
  let o := if strLt x y then Ordering.lt
           else if strLt y x then Ordering.gt else Ordering.eq
  if asc then o else o.swap

/-- Lexicographic comparison of rows by an ordered list of
`(column, ascending)` directives. -/
def lexCmp (dirs : List (String × Bool)) (r₁ r₂ : Row) : Ordering :=
  match dirs with
  | [] => .eq
  | (c, asc) :: rest =>
    match dirCmp asc (cell r₁ c) (cell r₂ c) with
    | .eq => lexCmp rest r₁ r₂
    | o => o

/-- The weak order induced by `lexCmp`. -/
def lexLe (dirs : List (String × Bool)) (r₁ r₂ : Row) : Bool :=
  !(lexCmp dirs r₁ r₂ == Ordering.gt)

/-- Multi-key ordering semantics shared by SQL `ORDER BY` and blaze
`query.sort`: a stable sort of the rows by the lexicographic comparator. -/
def sortRowsBy (dirs : List (String × Bool)) (rows : List Row) : List Row :=
  List.insertionSort (fun a b => lexLe dirs a b = true) rows

/-- The executed sqlalchemy ORDER BY (lines 152-158): per-parameter
directions. -/
def saApplySorts (params : List String) (rows : List Row) : List Row :=
  sortRowsBy (saBuildSorts params) rows

/-- The executed blaze sort (lines 218-224): every column shares the
single `ascending` flag. -/
def bzApplySorts (params : List String) (rows : List Row) : List Row :=
  sortRowsBy ((bzBuildSorts params).1.map (fun c => (c, (bzBuildSorts params).2))) rows

/-- Python truthiness of the converted offset/limit value (`None` and `0`
are falsy). -/
def pyTruthyNat (x : Option Nat) : Bool :=
  match x with
  | none => false
  | some n => n != 0

/-- Python list slicing `rows[a:b]` for optional non-negative bounds. -/
def pySlice (a b : Option Nat) (rows : List Row) : List Row :=
  match b with
  | none => rows.drop (a.getD 0)
  | some bv => (rows.take bv).drop (a.getD 0)

/-- The blaze pagination block (lines 226-233): `_offset` and `_limit` are
the first supplied request strings (`none` when absent; a supplied numeric
string is non-empty, hence truthy, so `int(...)` conversion always happens
when a value is supplied); then `if _offset and _limit: _limit += _offset`
(now int truthiness, where `0` is falsy) and
`if _offset or _limit: query = query[_offset:_limit]`. -/
def bzSlice (off lim : Option Nat) (rows : List Row) : List Row :=
  let lim' := if pyTruthyNat off && pyTruthyNat lim
              then lim.map (fun m => m + off.getD 0) else lim
  if pyTruthyNat off || pyTruthyNat lim' then pySlice off lim' rows else rows

/-- The sqlalchemy pagination (lines 160-163): `_offset`/`_limit` are the
raw request strings there (`none` when absent); a supplied numeric string
is non-empty, hence truthy, so `query.offset(...)`/`query.limit(...)` are
applied whenever supplied. SQL semantics: OFFSET k skips the first k rows,
LIMIT m then keeps at most m rows. -/
def saSlice (off lim : Option Nat) (rows : List Row) : List Row :=
  let afterOffset := match off with
    | none => rows
    | some k => rows.drop k
  match lim with
  | none => afterOffset
  | some m => afterOffset.take m

/-! ## Theorems -/

/-- C1: for each of select, where, groupby, agg, sort (all of which call
`getq` with no `default_value`), the value used to build the query follows
the fixed precedence: a non-empty configuration `query` value wins
unconditionally; otherwise the request's non-empty repeated parameters;
otherwise the configuration `default` value (when truthy); otherwise the
key is empty (`None`). -/
theorem getq_precedence (queryCfg : Option (List String)) (args : List String)
    (defaultCfg : Option (List String)) :
    (pyTruthy queryCfg = true → getq queryCfg args defaultCfg none = queryCfg) ∧
    (pyTruthy queryCfg = false → args ≠ [] →
      getq queryCfg args defaultCfg none = some args) ∧
    (pyTruthy queryCfg = false → args = [] → pyTruthy defaultCfg = true →
      getq queryCfg args defaultCfg none = defaultCfg) ∧
    (pyTruthy queryCfg = false → args = [] → pyTruthy defaultCfg = false →
      getq queryCfg args defaultCfg none = none) := by
  refine ⟨fun hq => ?_, fun hq ha => ?_, fun hq ha hd => ?_, fun hq ha hd => ?_⟩ <;>
    simp_all [getq, pyOr, pyTruthy]

/-- Witness for C1: concrete instantiation of each precedence branch. -/
theorem getq_precedence_witness :
    getq (some ["a", "b"]) ["c"] (some ["d"]) none = some ["a", "b"] ∧
    getq none ["c"] (some ["d"]) none = some ["c"] ∧
    getq (some []) [] (some ["d"]) none = some ["d"] ∧
    getq none [] none none = none :=
  ⟨(getq_precedence (some ["a", "b"]) ["c"] (some ["d"])).1 (by decide),
   (getq_precedence none ["c"] (some ["d"])).2.1 (by decide) (by decide),
   (getq_precedence (some []) [] (some ["d"])).2.2.1 (by decide) rfl (by decide),
   (getq_precedence none [] none).2.2.2 (by decide) rfl (by decide)⟩

/-- C6: the serializer picks the first format tag present in the fixed
priority order json, csv, html — independent of the order tags appear in
the request (the choice is invariant under permutation of the format
list) — and fails (`NotImplementedError`) when none of the three tags is
present. -/
theorem chooseFormat_priority (formats : List String) :
    ("json" ∈ formats → chooseFormat formats = .ok .json) ∧
    ("json" ∉ formats → "csv" ∈ formats → chooseFormat formats = .ok .csv) ∧
    ("json" ∉ formats → "csv" ∉ formats → "html" ∈ formats →
      chooseFormat formats = .ok .html) ∧
    ("json" ∉ formats → "csv" ∉ formats → "html" ∉ formats →
      chooseFormat formats = .error formats) ∧
    (∀ formats₂, formats.Perm formats₂ →
      (chooseFormat formats).map id = (chooseFormat formats₂).map id ∨
      ((chooseFormat formats).isOk = false ∧ (chooseFormat formats₂).isOk = false)) := by
  refine ⟨fun hj => ?_, fun hj hc => ?_, fun hj hc hh => ?_, fun hj hc hh => ?_,
    fun formats₂ hperm => ?_⟩
  · simp [chooseFormat, hj]
  · simp [chooseFormat, hj, hc]
  · simp [chooseFormat, hj, hc, hh]
  · simp [chooseFormat, hj, hc, hh]
  · have hj' := hperm.mem_iff (a := "json")
    have hc' := hperm.mem_iff (a := "csv")
    have hh' := hperm.mem_iff (a := "html")
    by_cases h1 : "json" ∈ formats
    · left; simp [chooseFormat, h1, hj'.mp h1]
    · by_cases h2 : "csv" ∈ formats
      · left; simp [chooseFormat, h1, h2, hj'.not.mp h1, hc'.mp h2]
      · by_cases h3 : "html" ∈ formats
        · left
          simp [chooseFormat, h1, h2, h3, hj'.not.mp h1, hc'.not.mp h2, hh'.mp h3]
        · right
          simp [chooseFormat, h1, h2, h3, hj'.not.mp h1, hc'.not.mp h2, hh'.not.mp h3,
            Except.isOk, Except.toBool]

/-- Witness for C6: `format=csv&format=json` yields JSON (json outranks csv
regardless of request order), and a request with only unknown tags fails. -/
theorem chooseFormat_priority_witness :
    chooseFormat ["csv", "json"] = .ok .json ∧
    chooseFormat ["xml"] = .error ["xml"] :=
  ⟨(chooseFormat_priority ["csv", "json"]).1 (by decide),
   (chooseFormat_priority ["xml"]).2.2.2.1 (by decide) (by decide) (by decide)⟩

/-- C10: `_formats = self.getq('format', ['json'])` — when neither the
request nor the configuration `query`/`default` mappings supply a format,
the list defaults to `['json']` and serialization succeeds as JSON; the
unsupported-format failure is reachable only when some source explicitly
supplied format tags and those tags exclude all of json, csv and html. -/
theorem format_default_json (queryCfg : Option (List String)) (args : List String)
    (defaultCfg : Option (List String)) :
    (pyTruthy queryCfg = false → args = [] → pyTruthy defaultCfg = false →
      getq queryCfg args defaultCfg (some ["json"]) = some ["json"] ∧
      chooseFormat ["json"] = .ok .json) ∧
    (∀ l, getq queryCfg args defaultCfg (some ["json"]) = some l →
      chooseFormat l = .error l →
      (pyTruthy queryCfg = true ∨ args ≠ [] ∨ pyTruthy defaultCfg = true) ∧
      "json" ∉ l ∧ "csv" ∉ l ∧ "html" ∉ l) := by
  constructor
  · intro hq ha hd
    constructor
    · simp_all [getq, pyOr, pyTruthy]
    · simp [chooseFormat]
  · intro l hl herr
    have hmem : "json" ∉ l ∧ "csv" ∉ l ∧ "html" ∉ l := by
      by_cases h1 : "json" ∈ l
      · simp [chooseFormat, h1] at herr
      · by_cases h2 : "csv" ∈ l
        · simp [chooseFormat, h1, h2] at herr
        · by_cases h3 : "html" ∈ l
          · simp [chooseFormat, h1, h2, h3] at herr
          · exact ⟨h1, h2, h3⟩
    refine ⟨?_, hmem⟩
    by_contra hnone
    push_neg at hnone
    obtain ⟨hq, ha, hd⟩ := hnone
    have hq' : pyTruthy queryCfg = false := by
      cases h : pyTruthy queryCfg
      · rfl
      · exact absurd h hq
    have hd' : pyTruthy defaultCfg = false := by
      cases h : pyTruthy defaultCfg
      · rfl
      · exact absurd h hd
    have : getq queryCfg args defaultCfg (some ["json"]) = some ["json"] := by
      simp_all [getq, pyOr, pyTruthy]
    rw [this] at hl
    have : l = ["json"] := by injection hl with h; exact h.symm
    subst this
    exact hmem.1 (by decide)

/-- Witness for C10: with nothing supplied anywhere, the format list is
`['json']` and the serializer emits JSON. -/
theorem format_default_json_witness :
    getq none [] none (some ["json"]) = some ["json"] ∧
    chooseFormat ["json"] = .ok .json :=
  (format_default_json none [] none).1 (by decide) rfl (by decide)

/-- Two configurations equal except in `table` have distinct driver keys. -/
theorem driverKey_table_injective {p₁ p₂ : Params}
    (hdr : p₁.driver = p₂.driver) (hurl : p₁.url = p₂.url)
    (hpar : p₁.parametersRepr = p₂.parametersRepr) (htab : p₁.table ≠ p₂.table) :
    driverKey p₁ ≠ driverKey p₂ := by
  intro hkey
  apply htab
  unfold driverKey at hkey
  rw [hdr, hurl, hpar] at hkey
  have h1 := List.append_cancel_left hkey
  have h2 := List.append_cancel_left h1
  have h3 := List.append_cancel_left h2
  have h4 := List.append_cancel_left h3
  have h5 := List.append_cancel_left h4
  rw [← List.append_assoc, ← List.append_assoc] at h5
  have h6 := List.append_cancel_right h5
  have h7 := List.append_cancel_right h6
  cases hp : p₁.table with
  | mk d₁ =>
    cases hq : p₂.table with
    | mk d₂ =>
      rw [hp, hq] at h7
      simpa [String.toList] using congrArg String.mk h7

/-- C2 counterexample: two requests with byte-identical backend
configuration do NOT obtain the same connection handle under the blaze
driver — the blaze branch constructs a fresh connection on every request
and never touches the registry — so the claim does not hold "for both
driver kinds". -/
theorem registry_blaze_counterexample :
    (blazeObtainConn initialDrivers ⟨"blaze", "sqlite:///x.db", "flags", ""⟩).1 = 0 ∧
    (blazeObtainConn (blazeObtainConn initialDrivers
        ⟨"blaze", "sqlite:///x.db", "flags",""⟩).2
      ⟨"blaze", "sqlite:///x.db", "flags", ""⟩).1 = 1 ∧
    (0 : Nat) ≠ 1 :=
  ⟨rfl, rfl, by decide⟩

/-- C2 amended: under the sqlalchemy driver, a repeated request with a
byte-identical configuration returns the identical handle and leaves the
registry unchanged (constructed once on first miss, never evicted), and two
configurations differing only in `table` yield distinct handles; the blaze
driver does not use the registry and constructs a new connection per
request. -/
theorem registry_sa_reuse_and_distinct (st : DriversState) (p p₁ p₂ : Params)
    (hdr : p₁.driver = p₂.driver) (hurl : p₁.url = p₂.url)
    (hpar : p₁.parametersRepr = p₂.parametersRepr) (htab : p₁.table ≠ p₂.table) :
    saObtainEngine (saObtainEngine st p).2 p = saObtainEngine st p ∧
    (saObtainEngine initialDrivers p₁).1 ≠
      (saObtainEngine (saObtainEngine initialDrivers p₁).2 p₂).1 ∧
    (∀ q : Params, (blazeObtainConn st q).1 = st.nextHandle ∧
      (blazeObtainConn st q).2.entries = st.entries ∧
      (blazeObtainConn st q).2.nextHandle = st.nextHandle + 1) := by
  refine ⟨?_, ?_, fun q => ⟨rfl, rfl, rfl⟩⟩
  · cases hl : st.entries.lookup (driverKey p) with
    | some h => simp [saObtainEngine, hl]
    | none => simp [saObtainEngine, hl]
  · have hkey := driverKey_table_injective hdr hurl hpar htab
    have hbeq : (driverKey p₂ == driverKey p₁) = false :=
      beq_eq_false_iff_ne.mpr (fun h => hkey h.symm)
    simp [saObtainEngine, initialDrivers, List.lookup, hbeq]

/-- Witness for C2's amended theorem at concrete configurations differing
only in `table`. -/
theorem registry_sa_reuse_and_distinct_witness :
    saObtainEngine (saObtainEngine initialDrivers
        ⟨"sqlalchemy", "sqlite:///x.db", "flags", ""⟩).2
      ⟨"sqlalchemy", "sqlite:///x.db", "flags", ""⟩ =
    saObtainEngine initialDrivers ⟨"sqlalchemy", "sqlite:///x.db", "flags", ""⟩ ∧
    (saObtainEngine initialDrivers ⟨"sqlalchemy", "sqlite:///x.db", "a", ""⟩).1 ≠
      (saObtainEngine (saObtainEngine initialDrivers
          ⟨"sqlalchemy", "sqlite:///x.db", "a", ""⟩).2
        ⟨"sqlalchemy", "sqlite:///x.db", "b", ""⟩).1 :=
  ⟨(registry_sa_reuse_and_distinct initialDrivers
      ⟨"sqlalchemy", "sqlite:///x.db", "flags", ""⟩
      ⟨"sqlalchemy", "sqlite:///x.db", "a", ""⟩
      ⟨"sqlalchemy", "sqlite:///x.db", "b", ""⟩
      rfl rfl rfl (by decide)).1,
   (registry_sa_reuse_and_distinct initialDrivers
      ⟨"sqlalchemy", "sqlite:///x.db", "flags", ""⟩
      ⟨"sqlalchemy", "sqlite:///x.db", "a", ""⟩
      ⟨"sqlalchemy", "sqlite:///x.db", "b", ""⟩
      rfl rfl rfl (by decide)).2.1⟩

/-- The pattern `%` alone matches every string. -/
theorem likeMatch_percent_only (t : List Char) : likeMatch ['%'] t = true := by
  induction t with
  | nil => simp [likeMatch]
  | cons c t' ih => simp [likeMatch, ih]

/-- A leading `%` matches a string iff the rest of the pattern matches some
suffix. -/
theorem likeMatch_percent_cons (ps : List Char) (s : List Char) :
    likeMatch ('%' :: ps) s = true ↔ ∃ t, t <:+ s ∧ likeMatch ps t = true := by
  induction s with
  | nil =>
    have hstep : likeMatch ('%' :: ps) [] = likeMatch ps [] := by simp [likeMatch]
    rw [hstep]
    constructor
    · intro h
      exact ⟨[], List.suffix_rfl, h⟩
    · rintro ⟨t, ht, hm⟩
      rw [List.suffix_nil] at ht
      simpa [ht] using hm
  | cons c s' ih =>
    have hstep : likeMatch ('%' :: ps) (c :: s') =
        (likeMatch ps (c :: s') || likeMatch ('%' :: ps) s') := by
      simp [likeMatch]
    rw [hstep, Bool.or_eq_true, ih]
    constructor
    · rintro (h | ⟨t, ht, hm⟩)
      · exact ⟨c :: s', List.suffix_rfl, h⟩
      · exact ⟨t, ht.trans (List.suffix_cons c s'), hm⟩
    · rintro ⟨t, ht, hm⟩
      rcases List.suffix_cons_iff.mp ht with rfl | ht'
      · exact Or.inl hm
      · exact Or.inr ⟨t, ht', hm⟩

/-- A wildcard-free pattern followed by `%` matches a string iff the
pattern is a prefix of the string. -/
theorem likeMatch_literal_percent (v : List Char) (hp : '%' ∉ v) (hu : '_' ∉ v) :
    ∀ t, likeMatch (v ++ ['%']) t = true ↔ v <+: t := by
  induction v with
  | nil =>
    intro t
    simp [likeMatch_percent_only, List.nil_prefix]
  | cons a v' ih =>
    have ha : a ≠ '%' := fun h => hp (h ▸ List.mem_cons_self a v')
    have ha' : a ≠ '_' := fun h => hu (h ▸ List.mem_cons_self a v')
    have hp' : '%' ∉ v' := fun h => hp (List.mem_cons_of_mem a h)
    have hu' : '_' ∉ v' := fun h => hu (List.mem_cons_of_mem a h)
    intro t
    cases t with
    | nil => simp [likeMatch, ha]
    | cons c t' =>
      have hstep : likeMatch ((a :: v') ++ ['%']) (c :: t') =
          ((a == c) && likeMatch (v' ++ ['%']) t') := by
        simp [likeMatch, ha, ha']
      rw [hstep, Bool.and_eq_true, beq_iff_eq, ih hp' hu' t', List.cons_prefix_cons]

/-- A wildcard-free value wrapped in `%...%` (the pattern the source builds
for `~`/`!~`) matches a string iff the value is a contiguous substring. -/
theorem likeMatch_contains (v s : List Char) (hp : '%' ∉ v) (hu : '_' ∉ v) :
    likeMatch ('%' :: (v ++ ['%'])) s = true ↔ v <:+: s := by
  rw [likeMatch_percent_cons, List.infix_iff_prefix_suffix]
  constructor
  · rintro ⟨t, ht, hm⟩
    exact ⟨t, (likeMatch_literal_percent v hp hu t).mp hm, ht⟩
  · rintro ⟨t, hpre, hsuf⟩
    exact ⟨t, hsuf, (likeMatch_literal_percent v hp hu t).mpr hpre⟩

/-- The character list of the pattern `'%' + val + '%'` built by the source. -/
theorem pct_pattern_toList (v : String) :
    ("%" ++ v ++ "%").toList = '%' :: (v.toList ++ ['%']) := by
  simp [String.toList]

/-- Lowercasing the `%value%` pattern lowercases only the value. -/
theorem pct_pattern_toLower (v : String) :
    ("%" ++ v ++ "%").toList.map Char.toLower =
      '%' :: (v.toList.map Char.toLower ++ ['%']) := by
  have h : Char.toLower '%' = '%' := by decide
  simp [pct_pattern_toList, h]

/-- C3 counterexample: for `where=name!~bob` the relational adapter builds
`col.notlike('%bob%')`, which is case-SENSITIVE, so the row whose `name` is
"BOBBY" — which contains "bob" in a different letter case — is NOT
excluded, contradicting the claimed case-insensitive exclusion semantics of
`!~`. -/
theorem where_notlike_counterexample :
    saBuildWheres ["name!~bob"] = [.notlike "name" "%bob%"] ∧
    saFilterRows (saBuildWheres ["name!~bob"]) [[("name", "BOBBY")]] =
      [[("name", "BOBBY")]] ∧
    ciContains "BOBBY" "bob" = true := by
  have hbuild : saBuildWheres ["name!~bob"] = [.notlike "name" "%bob%"] := by decide
  have hpat : ("%bob%" : String).toList = '%' :: ("bob".toList ++ ['%']) := by decide
  have hnomatch : likeMatch ['%', 'b', 'o', 'b', '%'] ['B', 'O', 'B', 'B', 'Y'] = false := by
    rw [Bool.eq_false_iff]
    intro hm
    have hinf :=
      (likeMatch_contains ['b', 'o', 'b'] ['B', 'O', 'B', 'B', 'Y']
        (by decide) (by decide)).mp hm
    revert hinf
    decide
  refine ⟨hbuild, ?_, by decide⟩
  rw [hbuild]
  simp [saFilterRows, evalSAPred, cell, hpat, hnomatch]

/-- C3 amended: in the relational adapter, `~` matches exactly the rows
whose column value contains the given (wildcard-free) substring in any
letter case, but `!~` (built as `notlike`, not `notilike`) excludes only
rows containing the substring in the exact letter case given — rows
matching in a different case are retained; the array (blaze) adapter has no
dispatch branch at all for `~` or `!~`, so no substring predicate is built
there. -/
theorem where_substring_semantics (rows : List Row) (c v : String)
    (hp : '%' ∉ v.toList) (hu : '_' ∉ v.toList)
    (hpl : '%' ∉ v.toList.map Char.toLower) (hul : '_' ∉ v.toList.map Char.toLower) :
    saPredOf c "~" v = some (.ilike c ("%" ++ v ++ "%")) ∧
    saPredOf c "!~" v = some (.notlike c ("%" ++ v ++ "%")) ∧
    saFilterRows [.ilike c ("%" ++ v ++ "%")] rows =
      rows.filter (fun r => ciContains (cell r c) v) ∧
    saFilterRows [.notlike c ("%" ++ v ++ "%")] rows =
      rows.filter (fun r => !csContains (cell r c) v) ∧
    bzPredOf c "~" v = none ∧ bzPredOf c "!~" v = none := by
  have hilike : ∀ r : Row, evalSAPred r (.ilike c ("%" ++ v ++ "%")) =
      ciContains (cell r c) v := by
    intro r
    simp only [evalSAPred, ciContains, pct_pattern_toLower]
    by_cases hP : (v.toList.map Char.toLower) <:+: ((cell r c).toList.map Char.toLower)
    · rw [(likeMatch_contains _ _ hpl hul).mpr hP]
      exact (decide_eq_true hP).symm
    · have hne : likeMatch ('%' :: (v.toList.map Char.toLower ++ ['%']))
          ((cell r c).toList.map Char.toLower) = false := by
        rw [Bool.eq_false_iff]
        intro hm
        exact hP ((likeMatch_contains _ _ hpl hul).mp hm)
      rw [hne]
      exact (decide_eq_false hP).symm
  have hnotlike : ∀ r : Row, evalSAPred r (.notlike c ("%" ++ v ++ "%")) =
      !csContains (cell r c) v := by
    intro r
    simp only [evalSAPred, csContains, pct_pattern_toList]
    by_cases hP : v.toList <:+: (cell r c).toList
    · rw [(likeMatch_contains _ _ hp hu).mpr hP, decide_eq_true hP]
    · have hne : likeMatch ('%' :: (v.toList ++ ['%'])) (cell r c).toList = false := by
        rw [Bool.eq_false_iff]
        intro hm
        exact hP ((likeMatch_contains _ _ hp hu).mp hm)
      rw [hne, decide_eq_false hP]
  refine ⟨by simp [saPredOf], by simp [saPredOf], ?_, ?_, by simp [bzPredOf],
    by simp [bzPredOf]⟩
  · simp only [saFilterRows, List.all_cons, List.all_nil, Bool.and_true]
    exact List.filter_congr (fun r _ => hilike r)
  · simp only [saFilterRows, List.all_cons, List.all_nil, Bool.and_true]
    exact List.filter_congr (fun r _ => hnotlike r)

/-- Witness for C3's amended theorem: `~bob` keeps exactly the
case-insensitive matches among concrete rows. -/
theorem where_substring_semantics_witness :
    saFilterRows [SAPred.ilike "name" ("%" ++ "bob" ++ "%")]
        [[("name", "Bobby")], [("name", "xyz")]] =
      List.filter (fun r => ciContains (cell r "name") "bob")
        [[("name", "Bobby")], [("name", "xyz")]] ∧
    List.filter (fun r => ciContains (cell r "name") "bob")
        [[("name", "Bobby")], [("name", "xyz")]] = [[("name", "Bobby")]] :=
  ⟨(where_substring_semantics [[("name", "Bobby")], [("name", "xyz")]] "name" "bob"
      (by decide) (by decide) (by decide) (by decide)).2.2.1,
   by decide⟩

/-- C5: when aggregate parameters are present but the group-by column list
is empty, the aggregation path is not entered in either adapter: the query
is built exactly as a plain non-aggregated select, the aggregates
(well-formed, malformed, or with unknown operators) are ignored, and no
error is raised. -/
theorem agg_without_groupby_ignored (selects : List String) (a : String)
    (rest : List String) :
    buildSASelect selects [] (a :: rest) = buildSASelect selects [] [] ∧
    buildSASelect selects [] (a :: rest) =
      (if selects ≠ [] then .ok (.cols selects) else .ok .star) ∧
    buildBzShape [] (a :: rest) = .ok .table := by
  refine ⟨?_, ?_, ?_⟩ <;> simp [buildSASelect, buildBzShape]

/-- C7 counterexample: with offset=0 and limit=0 supplied over one row, the
array adapter returns the full row list — int 0 is falsy in Python, so the
`if _offset or _limit` guard skips slicing — while the claim requires
min(0, 1−0) = 0 rows. -/
theorem offset_limit_zero_counterexample :
    bzSlice (some 0) (some 0) [[("id", "1")]] = [[("id", "1")]] ∧
    min 0 ([[("id", "1")]].length - 0) = 0 := by decide

/-- C7 amended: for supplied non-negative offset k ≤ n and limit m, the
result is exactly the min(m, n−k) rows starting at zero-based index k — in
the array adapter whenever k and m are not both zero (both zero is treated
as "no pagination" by Python int truthiness and all n rows are returned),
because the slice end index is computed as offset + limit before slicing;
and in the relational adapter unconditionally. -/
theorem offset_limit_slice (rows : List Row) (k m : Nat) (hk : k ≤ rows.length)
    (hnz : k ≠ 0 ∨ m ≠ 0) :
    bzSlice (some k) (some m) rows = (rows.drop k).take m ∧
    saSlice (some k) (some m) rows = (rows.drop k).take m ∧
    ((rows.drop k).take m).length = min m (rows.length - k) := by
  refine ⟨?_, rfl, ?_⟩
  · by_cases hk0 : k = 0
    · subst hk0
      have hm : m ≠ 0 := hnz.resolve_left (fun h => h rfl)
      simp [bzSlice, pyTruthyNat, pySlice, hm]
    · by_cases hm0 : m = 0
      · subst hm0
        simp [bzSlice, pyTruthyNat, pySlice, hk0]
      · have hkb : (k != 0) = true := by simpa using hk0
        have hmb : (m != 0) = true := by simpa using hm0
        simp [bzSlice, pyTruthyNat, pySlice, hkb, hmb, List.drop_take]
  · simp [List.length_take, List.length_drop]

/-- Witness for C7's amended theorem: 10 rows with offset=3, limit=4 give
exactly the 4 rows at indices 3..6. -/
theorem offset_limit_slice_witness :
    bzSlice (some 3) (some 4) ((List.range 10).map (fun i => [("i", toString i)])) =
      ((((List.range 10).map (fun i => [("i", toString i)])).drop 3).take 4) ∧
    ((((List.range 10).map (fun i => [("i", toString i)])).drop 3).take 4).length =
      min 4 (((List.range 10).map (fun i => [("i", toString i)])).length - 3) :=
  have h := offset_limit_slice ((List.range 10).map (fun i => [("i", toString i)]))
    3 4 (by decide) (Or.inl (by decide))
  ⟨h.1, h.2.2⟩

/-- C9: a where string in which the operator regex finds no match, and an
agg string the aggregate regex does not match, are silently excluded from
the built query in both adapters, leaving the rest of the build unchanged —
in particular such strings never by themselves fail the request. -/
theorem malformed_strings_skipped (ws₁ ws₂ : List String) (w : String)
    (hw : whSearch w.toList = none) (as₁ as₂ : List String) (a : String)
    (ha : aggSearch a.toList = none) :
    saBuildWheres (ws₁ ++ w :: ws₂) = saBuildWheres (ws₁ ++ ws₂) ∧
    bzBuildWheres (ws₁ ++ w :: ws₂) = bzBuildWheres (ws₁ ++ ws₂) ∧
    saBuildAggItems (as₁ ++ a :: as₂) = saBuildAggItems (as₁ ++ as₂) ∧
    bzBuildAggs (as₁ ++ a :: as₂) = bzBuildAggs (as₁ ++ as₂) := by
  have hw' : whSearch w.data = none := hw
  have ha' : aggSearch a.data = none := ha
  refine ⟨?_, ?_, ?_, ?_⟩
  · simp [saBuildWheres, List.filterMap_append, List.filterMap_cons, hw, hw']
  · simp [bzBuildWheres, List.filterMap_append, List.filterMap_cons, hw, hw']
  · induction as₁ with
    | nil => simp [saBuildAggItems, ha, ha']
    | cons x xs ih =>
      simp only [List.cons_append, saBuildAggItems, List.append_eq]
      rw [ih]
  · induction as₁ with
    | nil => simp [bzBuildAggs, ha, ha']
    | cons x xs ih =>
      simp only [List.cons_append, bzBuildAggs, List.append_eq]
      rw [ih]

/-- Witness for C9: an operator-free where string and a pattern-free agg
string are dropped without affecting the rest of the build. -/
theorem malformed_strings_skipped_witness :
    saBuildWheres (["city=London"] ++ "nooperator" :: []) =
      saBuildWheres (["city=London"] ++ []) ∧
    saBuildAggItems (["t:sum(c)"] ++ "badagg" :: []) =
      saBuildAggItems (["t:sum(c)"] ++ []) :=
  have h := malformed_strings_skipped ["city=London"] [] "nooperator" (by decide)
    ["t:sum(c)"] [] "badagg" (by decide)
  ⟨h.1, h.2.2.1⟩

/-- The aggregate pattern, anchored at the start, matches a canonical
`name:op(col)` character sequence and captures exactly its three parts. -/
theorem aggMatchAt_canonical (n o c : List Char)
    (hn : n ≠ []) (hnc : ':' ∉ n)
    (ho : o ≠ []) (hoc : ∀ ch ∈ o, isAggOpChar ch = true)
    (hc : c ≠ []) (hcc : ':' ∉ c) :
    aggMatchAt (n ++ (':' :: (o ++ ('(' :: (c ++ [')']))))) = some (⟨n⟩, ⟨o⟩, ⟨c⟩) := by
  have hpn : ∀ ch ∈ n, (ch != ':') = true := by
    intro ch hch
    have h : ch ≠ ':' := fun h => hnc (h ▸ hch)
    simpa using h
  have hpc : ∀ ch ∈ c, (ch != ':') = true := by
    intro ch hch
    have h : ch ≠ ':' := fun h => hcc (h ▸ hch)
    simpa using h
  have hopen : isAggOpChar '(' = false := by decide
  have hpar1 : ((')' : Char) != ':') = true := by decide
  have hpar2 : ((')' : Char) != ')') = false := by decide
  simp [aggMatchAt, lastParenSplit,
    List.takeWhile_append_of_pos hpn, List.dropWhile_append_of_pos hpn,
    List.takeWhile_append_of_pos hoc, List.dropWhile_append_of_pos hoc,
    List.takeWhile_append_of_pos hpc, List.dropWhile_append_of_pos hpc,
    List.takeWhile_cons, List.dropWhile_cons, hopen, hpar1, hpar2,
    hn, ho, hc, List.reverse_append]

/-- `re.search` of the aggregate pattern on a canonical `name:op(col)`
string yields exactly `(name, op, col)`. -/
theorem aggSearch_canonical (name op col : String)
    (hn : name.toList ≠ []) (hnc : ':' ∉ name.toList)
    (ho : op.toList ≠ []) (hoc : ∀ ch ∈ op.toList, isAggOpChar ch = true)
    (hc : col.toList ≠ []) (hcc : ':' ∉ col.toList) :
    aggSearch (name ++ ":" ++ op ++ "(" ++ col ++ ")").toList = some (name, op, col) := by
  have htl : (name ++ ":" ++ op ++ "(" ++ col ++ ")").toList =
      name.toList ++ (':' :: (op.toList ++ ('(' :: (col.toList ++ [')'])))) := by
    show (name.data ++ [':'] ++ op.data ++ ['('] ++ col.data ++ [')']) =
      name.data ++ (':' :: (op.data ++ ('(' :: (col.data ++ [')']))))
    simp
  obtain ⟨n₀, ns, hns⟩ := List.exists_cons_of_ne_nil hn
  rw [htl, hns, List.cons_append]
  simp only [aggSearch]
  rw [← List.cons_append, ← hns,
    aggMatchAt_canonical name.toList op.toList col.toList hn hnc ho hoc hc hcc]
  rfl

/-- C4: every aggregate string of the form `name:op(col)` parses to
exactly `(name, op, col)`; operators in the fixed table map to the
backend's native aggregates (`mean` to `avg`, `nunique` to
count-of-distinct on sqlalchemy and to the native `nunique` reducer on
blaze); any other operator — in particular any other alphabetic token,
which still matches the regex — fails the build with a `KeyError` (the
"UnknownAggregateOperator" condition) in both adapters instead of being
silently dropped. -/
theorem agg_operator_table (name op col : String)
    (hn : name.toList ≠ []) (hnc : ':' ∉ name.toList)
    (ho : op.toList ≠ []) (hoc : ∀ ch ∈ op.toList, isAggOpChar ch = true)
    (hc : col.toList ≠ []) (hcc : ':' ∉ col.toList) :
    aggSearch (name ++ ":" ++ op ++ "(" ++ col ++ ")").toList = some (name, op, col) ∧
    (saAggItem name "min" col = .ok (.aggPlain .min col name) ∧
     saAggItem name "max" col = .ok (.aggPlain .max col name) ∧
     saAggItem name "sum" col = .ok (.aggPlain .sum col name) ∧
     saAggItem name "count" col = .ok (.aggPlain .count col name) ∧
     saAggItem name "mean" col = .ok (.aggPlain .avg col name) ∧
     saAggItem name "nunique" col = .ok (.aggCountDistinct col name)) ∧
    (byaggs "min" = some .min ∧ byaggs "max" = some .max ∧
     byaggs "sum" = some .sum ∧ byaggs "count" = some .count ∧
     byaggs "mean" = some .mean ∧ byaggs "nunique" = some .nunique) ∧
    (op ∉ ["min", "max", "sum", "count", "mean", "nunique"] →
      saAggItem name op col = .error op ∧ byaggs op = none ∧
      saBuildAggItems [name ++ ":" ++ op ++ "(" ++ col ++ ")"] = .error op ∧
      bzBuildAggs [name ++ ":" ++ op ++ "(" ++ col ++ ")"] = .error op) := by
  have hparse := aggSearch_canonical name op col hn hnc ho hoc hc hcc
  refine ⟨hparse, ?_, ?_, ?_⟩
  · refine ⟨?_, ?_, ?_, ?_, ?_, ?_⟩ <;> simp [saAggItem, safuncs]
  · refine ⟨?_, ?_, ?_, ?_, ?_, ?_⟩ <;> simp [byaggs]
  intro hop
  simp only [List.mem_cons, List.not_mem_nil, or_false] at hop
  push_neg at hop
  obtain ⟨h1, h2, h3, h4, h5, h6⟩ := hop
  refine ⟨?_, ?_, ?_, ?_⟩
  · simp [saAggItem, safuncs, h1, h2, h3, h4, h5, h6]
  · simp [byaggs, h1, h2, h3, h4, h5, h6]
  · simp only [saBuildAggItems, hparse]
    simp [saAggItem, safuncs, h1, h2, h3, h4, h5, h6]
  · simp only [bzBuildAggs, hparse]
    simp [byaggs, h1, h2, h3, h4, h5, h6]

/-- Witness for C4: `total:median(count)` parses, and the unknown (but
alphabetic) operator `median` fails both builds; `nunique` maps to
count-of-distinct. -/
theorem agg_operator_table_witness :
    aggSearch ("total" ++ ":" ++ "median" ++ "(" ++ "count" ++ ")").toList =
      some ("total", "median", "count") ∧
    saAggItem "total" "median" "count" = .error "median" ∧
    bzBuildAggs ["total" ++ ":" ++ "median" ++ "(" ++ "count" ++ ")"] = .error "median" ∧
    saAggItem "total" "nunique" "count" = .ok (.aggCountDistinct "count" "total") :=
  have h := agg_operator_table "total" "median" "count" (by decide) (by decide)
    (by decide) (by decide) (by decide) (by decide)
  have hfail := h.2.2.2 (by decide)
  ⟨h.1, hfail.1, hfail.2.2.2, h.2.1.2.2.2.2.2⟩

/-- `partition(':')` on a colon-free sort parameter: the whole string as
the column and an empty direction part (hence ascending by default). -/
theorem pyPartitionColon_no_colon (c : String) (hc : ':' ∉ c.toList) :
    pyPartitionColon c = (c, "") := by
  have hp : ∀ ch ∈ c.toList, (ch != ':') = true := by
    intro ch hch
    have h : ch ≠ ':' := fun h => hc (h ▸ hch)
    simpa using h
  have ht : c.toList.takeWhile (fun ch => ch != ':') = c.toList :=
    List.takeWhile_eq_self_iff.mpr hp
  have hd : c.toList.dropWhile (fun ch => ch != ':') = [] :=
    List.dropWhile_eq_nil_iff.mpr hp
  have ht' : c.data.takeWhile (fun ch => ch != ':') = c.data := ht
  have hd' : c.data.dropWhile (fun ch => ch != ':') = [] := hd
  simp [pyPartitionColon, ht, hd, ht', hd']

/-- `partition(':')` splits a `col:dir` sort parameter at its first
colon. -/
theorem pyPartitionColon_split (c suf : String) (hc : ':' ∉ c.toList) :
    pyPartitionColon (c ++ ":" ++ suf) = (c, suf) := by
  have hp : ∀ ch ∈ c.toList, (ch != ':') = true := by
    intro ch hch
    have h : ch ≠ ':' := fun h => hc (h ▸ hch)
    simpa using h
  have hp' : ∀ ch ∈ c.data, (ch != ':') = true := hp
  have htl : (c ++ ":" ++ suf).toList = c.toList ++ (':' :: suf.toList) := by
    show (c.data ++ [':'] ++ suf.data) = c.data ++ (':' :: suf.data)
    simp
  have htl' : (c ++ ":" ++ suf).data = c.data ++ (':' :: suf.data) := htl
  simp [pyPartitionColon, htl, htl', List.takeWhile_append_of_pos hp,
    List.dropWhile_append_of_pos hp, List.takeWhile_append_of_pos hp',
    List.dropWhile_append_of_pos hp', List.takeWhile_cons, List.dropWhile_cons]

/-- `charListLt` is asymmetric. -/
theorem charListLt_asymm : ∀ x y, charListLt x y = true → charListLt y x = false := by
  intro x
  induction x with
  | nil =>
    intro y h
    cases y with
    | nil => simp [charListLt] at h
    | cons b bs => simp [charListLt]
  | cons a as ih =>
    intro y h
    cases y with
    | nil => simp [charListLt] at h
    | cons b bs =>
      simp only [charListLt] at h ⊢
      rcases Nat.lt_trichotomy a.toNat b.toNat with hab | hab | hab
      · simp [hab, Nat.lt_asymm hab]
      · simp only [hab, lt_self_iff_false, if_false] at h ⊢
        exact ih bs h
      · simp [hab, Nat.lt_asymm hab] at h

/-- Two mutually `charListLt`-incomparable lists are equal. -/
theorem charListLt_conn : ∀ x y, charListLt x y = false → charListLt y x = false →
    x = y := by
  intro x
  induction x with
  | nil =>
    intro y h₁ h₂
    cases y with
    | nil => rfl
    | cons b bs => simp [charListLt] at h₁
  | cons a as ih =>
    intro y h₁ h₂
    cases y with
    | nil => simp [charListLt] at h₂
    | cons b bs =>
      simp only [charListLt] at h₁ h₂
      rcases Nat.lt_trichotomy a.toNat b.toNat with hab | hab | hab
      · simp [hab] at h₁
      · have hchar : a = b := by
          rw [← Char.ofNat_toNat a, ← Char.ofNat_toNat b, hab]
        simp only [hab, lt_self_iff_false, if_false] at h₁ h₂
        rw [hchar, ih bs h₁ h₂]
      · simp [hab, Nat.lt_asymm hab] at h₂

/-- `charListLt` is transitive. -/
theorem charListLt_trans : ∀ x y z, charListLt x y = true → charListLt y z = true →
    charListLt x z = true := by
  intro x
  induction x with
  | nil =>
    intro y z h₁ h₂
    cases z with
    | nil =>
      cases y with
      | nil => simp [charListLt] at h₁
      | cons b bs => simp [charListLt] at h₂
    | cons c cs => simp [charListLt]
  | cons a as ih =>
    intro y z h₁ h₂
    cases y with
    | nil => simp [charListLt] at h₁
    | cons b bs =>
      cases z with
      | nil => simp [charListLt] at h₂
      | cons c cs =>
        simp only [charListLt] at h₁ h₂ ⊢
        rcases Nat.lt_trichotomy a.toNat b.toNat with hab | hab | hab
        · rcases Nat.lt_trichotomy b.toNat c.toNat with hbc | hbc | hbc
          · simp [Nat.lt_trans hab hbc]
          · have hac : a.toNat < c.toNat := by rw [← hbc]; exact hab
            simp [hac]
          · simp [hbc, Nat.lt_asymm hbc] at h₂
        · rcases Nat.lt_trichotomy b.toNat c.toNat with hbc | hbc | hbc
          · have hac : a.toNat < c.toNat := by rw [hab]; exact hbc
            simp [hac]
          · have hac : a.toNat = c.toNat := hab.trans hbc
            simp only [hab, hbc, hac, lt_self_iff_false, if_false] at h₁ h₂ ⊢
            exact ih bs cs h₁ h₂
          · simp [hbc, Nat.lt_asymm hbc] at h₂
        · simp [hab, Nat.lt_asymm hab] at h₁

/-- "Not less-than" is transitive for `charListLt`. -/
theorem charListNotLt_trans {x y z : List Char} (h₁ : charListLt x y = false)
    (h₂ : charListLt y z = false) : charListLt x z = false := by
  by_contra hxz
  rw [Bool.not_eq_false] at hxz
  cases hzy : charListLt z y with
  | false =>
    have hzy' : z = y := charListLt_conn z y hzy h₂
    subst hzy'
    exact Bool.noConfusion (h₁.symm.trans hxz)
  | true =>
    have h := charListLt_trans x z y hxz hzy
    exact Bool.noConfusion (h₁.symm.trans h)

/-- A single sort directive reduces the lexicographic comparison to one
cell comparison. -/
theorem lexCmp_single (col : String) (asc : Bool) (a b : Row) :
    lexCmp [(col, asc)] a b = dirCmp asc (cell a col) (cell b col) := by
  cases h : dirCmp asc (cell a col) (cell b col) <;> simp [lexCmp, h]

/-- The single-directive descending order: row `a` precedes row `b` iff
`b`'s cell is at most `a`'s. -/
theorem lexLe_single_desc (col : String) (a b : Row) :
    lexLe [(col, false)] a b = true ↔ strLe (cell b col) (cell a col) = true := by
  rw [lexLe, lexCmp_single]
  cases hxy : charListLt (cell a col).data (cell b col).data with
  | true =>
    simp [dirCmp, strLt, strLe, hxy]
    rfl
  | false =>
    cases hyx : charListLt (cell b col).data (cell a col).data with
    | true =>
      simp [dirCmp, strLt, strLe, hxy, hyx]
      rfl
    | false =>
      simp [dirCmp, strLt, strLe, hxy, hyx]
      rfl

/-- The single-directive ascending order: row `a` precedes row `b` iff
`a`'s cell is at most `b`'s. -/
theorem lexLe_single_asc (col : String) (a b : Row) :
    lexLe [(col, true)] a b = true ↔ strLe (cell a col) (cell b col) = true := by
  rw [lexLe, lexCmp_single]
  cases hxy : charListLt (cell a col).data (cell b col).data with
  | true =>
    simp [dirCmp, strLt, strLe, hxy, charListLt_asymm _ _ hxy]
    rfl
  | false =>
    cases hyx : charListLt (cell b col).data (cell a col).data with
    | true =>
      simp [dirCmp, strLt, strLe, hxy, hyx]
      rfl
    | false =>
      simp [dirCmp, strLt, strLe, hxy, hyx]
      rfl

/-- C8 counterexample: for sort=a:desc&sort=b:asc the array adapter sorts
all columns by the single `ascending` flag taken from the LAST parameter
(`asc` here), so column `a` is sorted ascending even though `a:desc` was
requested: the row with the smaller `a` value comes first. -/
theorem sort_blaze_counterexample :
    bzBuildSorts ["a:desc", "b:asc"] = (["a", "b"], true) ∧
    bzApplySorts ["a:desc", "b:asc"]
        [[("a", "2"), ("b", "y")], [("a", "1"), ("b", "x")]] =
      [[("a", "1"), ("b", "x")], [("a", "2"), ("b", "y")]] ∧
    strLt "1" "2" = true := by
  refine ⟨by decide, by decide, by decide⟩

/-- C8 amended: the relational adapter gives every sort parameter its own
direction, in parameter order — `col` and `col:asc` sort ascending (the
default for a missing or unrecognized direction), `col:desc` descending —
and a single-directive sort indeed orders the rows accordingly (sorted
output in the cell-value order `strLe`, a permutation of the input); the
array adapter instead applies ONE shared `ascending` flag, determined
solely by the direction part of the last sort parameter, to every sort
column. -/
theorem sort_directions (params : List String) (p c : String) (hc : ':' ∉ c.toList)
    (rows : List Row) :
    saBuildSorts (p :: params) =
      ((pyPartitionColon p).1, !((pyPartitionColon p).2 == "desc")) ::
        saBuildSorts params ∧
    saBuildSorts [c] = [(c, true)] ∧
    saBuildSorts [c ++ ":" ++ "asc"] = [(c, true)] ∧
    saBuildSorts [c ++ ":" ++ "desc"] = [(c, false)] ∧
    (saApplySorts [c ++ ":" ++ "desc"] rows).Perm rows ∧
    (saApplySorts [c ++ ":" ++ "desc"] rows).Pairwise
      (fun a b => strLe (cell b c) (cell a c) = true) ∧
    (saApplySorts [c] rows).Perm rows ∧
    (saApplySorts [c] rows).Pairwise
      (fun a b => strLe (cell a c) (cell b c) = true) ∧
    (∀ qs : List String,
      (bzBuildSorts qs).1 = qs.map (fun s => (pyPartitionColon s).1)) ∧
    (∀ qs₁ qs₂ : List String, qs₁.getLast? = qs₂.getLast? →
      (bzBuildSorts qs₁).2 = (bzBuildSorts qs₂).2) := by
  have hdesc : saBuildSorts [c ++ ":" ++ "desc"] = [(c, false)] := by
    simp [saBuildSorts, pyPartitionColon_split c "desc" hc]
  have hplain : saBuildSorts [c] = [(c, true)] := by
    simp [saBuildSorts, pyPartitionColon_no_colon c hc]
  have hperm₁ : (saApplySorts [c ++ ":" ++ "desc"] rows).Perm rows := by
    simp only [saApplySorts, sortRowsBy, hdesc]
    exact List.perm_insertionSort _ rows
  have hperm₂ : (saApplySorts [c] rows).Perm rows := by
    simp only [saApplySorts, sortRowsBy, hplain]
    exact List.perm_insertionSort _ rows
  have hsorted₁ : (saApplySorts [c ++ ":" ++ "desc"] rows).Pairwise
      (fun a b => strLe (cell b c) (cell a c) = true) := by
    simp only [saApplySorts, sortRowsBy, hdesc]
    haveI : IsTotal Row (fun a b => lexLe [(c, false)] a b = true) :=
      ⟨fun a b => by
        rw [lexLe_single_desc, lexLe_single_desc]
        cases h : charListLt (cell a c).data (cell b c).data with
        | false => exact Or.inl (by simp [strLe, h])
        | true => exact Or.inr (by simp [strLe, charListLt_asymm _ _ h])⟩
    haveI : IsTrans Row (fun a b => lexLe [(c, false)] a b = true) :=
      ⟨fun a b d hab hbd => by
        rw [lexLe_single_desc] at hab hbd ⊢
        have h₁ : charListLt (cell a c).data (cell b c).data = false := by
          simpa [strLe] using hab
        have h₂ : charListLt (cell b c).data (cell d c).data = false := by
          simpa [strLe] using hbd
        simpa [strLe] using charListNotLt_trans h₁ h₂⟩
    exact (List.sorted_insertionSort _ rows).imp
      (fun hab => (lexLe_single_desc c _ _).mp hab)
  have hsorted₂ : (saApplySorts [c] rows).Pairwise
      (fun a b => strLe (cell a c) (cell b c) = true) := by
    simp only [saApplySorts, sortRowsBy, hplain]
    haveI : IsTotal Row (fun a b => lexLe [(c, true)] a b = true) :=
      ⟨fun a b => by
        rw [lexLe_single_asc, lexLe_single_asc]
        cases h : charListLt (cell b c).data (cell a c).data with
        | false => exact Or.inl (by simp [strLe, h])
        | true => exact Or.inr (by simp [strLe, charListLt_asymm _ _ h])⟩
    haveI : IsTrans Row (fun a b => lexLe [(c, true)] a b = true) :=
      ⟨fun a b d hab hbd => by
        rw [lexLe_single_asc] at hab hbd ⊢
        have h₁ : charListLt (cell b c).data (cell a c).data = false := by
          simpa [strLe] using hab
        have h₂ : charListLt (cell d c).data (cell b c).data = false := by
          simpa [strLe] using hbd
        simpa [strLe] using charListNotLt_trans h₂ h₁⟩
    exact (List.sorted_insertionSort _ rows).imp
      (fun hab => (lexLe_single_asc c _ _).mp hab)
  refine ⟨rfl, hplain, ?_, hdesc, hperm₁, hsorted₁, hperm₂, hsorted₂, fun qs => rfl,
    fun qs₁ qs₂ hlast => ?_⟩
  · simp [saBuildSorts, pyPartitionColon_split c "asc" hc]
  · simp [bzBuildSorts, hlast]

/-- Witness for C8's amended theorem: a sqlalchemy `a:desc` sort of two
concrete rows is descending in column `a`. -/
theorem sort_directions_witness :
    (saApplySorts ["a" ++ ":" ++ "desc"] [[("a", "1")], [("a", "2")]]).Pairwise
      (fun r₁ r₂ => strLe (cell r₂ "a") (cell r₁ "a") = true) :=
  (sort_directions [] "x" "a" (by decide) [[("a", "1")], [("a", "2")]]).2.2.2.2.2.1
end DataHandler
